import Mathlib

/-!
Verification of the discovery / orchestration / export pipeline of the
Pylinac_BulkCBCT_Analysis repository, shallowly embedded from
`src/pylinac_bulkcbct/inventory.py` and `src/pylinac_bulkcbct/analysis.py`.

Python strings are modelled as Lean `String`; Python `str` algorithms are
implemented on `List Char` with `String` wrappers.  `pathlib.Path` values are
modelled by their string rendering (in Python, `Path(str(p)) == p` for the
already-normalised paths this program builds).  `datetime` values are modelled
by their canonical ISO-8601 rendering: per the Python standard library
contract, `datetime.fromisoformat` is the exact inverse of
`datetime.isoformat`, so a datetime is represented by the string `isoformat`
returns and `isoformat` is the identity on that representation.
-/

namespace BulkCBCT

/-- Python `str.strip()` on the leading side: drop leading whitespace. -/
def trimLeft (l : List Char) : List Char := l.dropWhile Char.isWhitespace

/-- Python `str.strip()`: drop leading and trailing whitespace. -/
def pyStripChars (l : List Char) : List Char :=
  ((trimLeft l).reverse.dropWhile Char.isWhitespace).reverse

/-- Python `str.strip()` lifted to `String`. -/
def pyStrip (s : String) : String := ⟨pyStripChars s.data⟩

/-- Python `str.strip(chars)` for a single character argument: drop that
character from both ends. -/
def pyStripCharChars (c : Char) (l : List Char) : List Char :=
  ((l.dropWhile (· = c)).reverse.dropWhile (· = c)).reverse

/-- Split a character list on every occurrence of a separator character,
keeping empty pieces, as Python `str.split(sep)` does. -/
def splitOnChar (c : Char) : List Char → List (List Char)
  | [] => [[]]
  | x :: xs =>
    if x = c then
      [] :: splitOnChar c xs
    else
      match splitOnChar c xs with
      | [] => [[x]]
      | p :: ps => (x :: p) :: ps

/-- Python `str.endswith(t)` for a single-character suffix, on lists. -/
def endsWithChar (c : Char) (l : List Char) : Bool :=
  match l.getLast? with
  | some d => d = c
  | none => false

/-- Python truthiness of a string: non-empty. -/
def strTruthy (s : String) : Bool := !s.data.isEmpty

/-! ### JSON-like value trees

`results_data()` payloads and the metrics stored on results are arbitrary
nested mapping / sequence / scalar trees.  Mutual inductives are used instead
of nested `List` so that structural recursion and induction stay ordinary.
Python `str` (and bytes) are scalars here, matching the explicit
`isinstance(payload, (str, bytes, bytearray))` exclusion in
`_flatten_metrics`. -/

mutual

inductive Json where
  | str (s : String)
  | num (n : Int)
  | bool (b : Bool)
  | null
  | arr (elems : JsonList)
  | obj (fields : JsonFields)
  deriving DecidableEq

inductive JsonList where
  | nil
  | cons (v : Json) (rest : JsonList)
  deriving DecidableEq

inductive JsonFields where
  | nil
  | cons (key : String) (v : Json) (rest : JsonFields)
  deriving DecidableEq

end

/-- Length of a `JsonList`. -/
def JsonList.length : JsonList → Nat
  | .nil => 0
  | .cons _ rest => 1 + rest.length

/-- Emptiness test used to model Python truthiness of a dict. -/
def JsonFields.isEmpty : JsonFields → Bool
  | .nil => true
  | .cons _ _ _ => false

/-- Python `str(value)` for the scalar JSON values that reach `Metric`
elements (composite values never do: `_flatten_metrics` only emits leaves). -/
def pyStr : Json → String
  | .str s => s
  | .num n => toString n
  | .bool b => if b then "True" else "False"
  | .null => "None"
  | .arr _ => "<sequence>"
  | .obj _ => "<mapping>"

/-- Child path for a mapping key: `f"{prefix}.{key}" if prefix else str(key)`
from `_flatten_metrics` (analysis.py line 88). -/
def childPrefixKey (pre : String) (key : String) : String :=
  if strTruthy pre then pre ++ "." ++ key else key

/-- Child path for a sequence index: `f"{prefix}[{index}]" if prefix else
f"[{index}]"` from `_flatten_metrics` (analysis.py line 92). -/
def childPrefixIndex (pre : String) (index : Nat) : String :=
  if strTruthy pre then pre ++ "[" ++ toString index ++ "]"
  else "[" ++ toString index ++ "]"

mutual

/-- Shallow embedding of `_flatten_metrics` (analysis.py lines 81-97):
mappings recurse per key with a dotted child path, non-text sequences recurse
per element with an indexed child path, and scalars emit one
`(prefix, value)` pair. -/
def flatten_metrics (payload : Json) (pre : String) : List (String × Json) :=
  match payload with
  | .obj fields => flattenFields fields pre
  | .arr elems => flattenElems elems pre 0
  | v => [(pre, v)]

/-- Loop `for key, value in payload.items()` of `_flatten_metrics`. -/
def flattenFields (fields : JsonFields) (pre : String) : List (String × Json) :=
  match fields with
  | .nil => []
  | .cons key v rest =>
    flatten_metrics v (childPrefixKey pre key) ++ flattenFields rest pre

/-- Loop `for index, value in enumerate(payload)` of `_flatten_metrics`. -/
def flattenElems (elems : JsonList) (pre : String) (index : Nat) :
    List (String × Json) :=
  match elems with
  | .nil => []
  | .cons v rest =>
    flatten_metrics v (childPrefixIndex pre index) ++
      flattenElems rest pre (index + 1)

end

/-! ### Summary parser -/

/-- Composition of the two line-ending replacements in `_normalise_summary`
(analysis.py line 103): `summary.replace("\r\n", "\n").replace("\r", "\n")`.
The first replacement rewrites each CR-LF pair to LF left-to-right, the second
rewrites every remaining CR to LF; fusing the two passes gives this single
structural recursion. -/
def normaliseNewlines : List Char → List Char
  | [] => []
  | '\r' :: '\n' :: rest => '\n' :: normaliseNewlines rest
  | '\r' :: rest => '\n' :: normaliseNewlines rest
  | c :: rest => c :: normaliseNewlines rest

/-- Line splitting of `_normalise_summary` (analysis.py line 104):
`[line.strip() for line in normalised.split("\n") if line.strip()]`. -/
def rawLines (l : List Char) : List (List Char) :=
  ((splitOnChar '\n' (normaliseNewlines l)).map pyStripChars).filter
    (fun x => !x.isEmpty)

/-- Continuation test of `_normalise_summary` (analysis.py line 115):
`line.endswith(":") or line.endswith(",")`. -/
def endsColonOrComma (l : List Char) : Bool :=
  endsWithChar ':' l || endsWithChar ',' l

/-- Merge loop of `_normalise_summary` (analysis.py lines 106-124): a line
ending with a colon or comma keeps the buffer open, otherwise the stripped
buffer is emitted; a trailing non-empty buffer is flushed at the end. -/
def mergeLines (buffer : List Char) : List (List Char) → List (List Char)
  | [] => if buffer.isEmpty then [] else [pyStripChars buffer]
  | line :: rest =>
    let buf := if buffer.isEmpty then line else buffer ++ ' ' :: line
    if endsColonOrComma line then mergeLines buf rest
    else pyStripChars buf :: mergeLines [] rest

/-- Shallow embedding of `_normalise_summary` (analysis.py lines 100-124). -/
def normalise_summary (summary : String) : List (List Char) :=
  mergeLines [] (rawLines summary.data)

/-- Strip an optional leading sign, as in a Python float literal. -/
def stripSign : List Char → List Char
  | '+' :: rest => rest
  | '-' :: rest => rest
  | l => l

/-- Consume `("_"? digit)*` greedily after an initial digit of a Python float
literal digit part, returning the unconsumed remainder. -/
def digitPartRest : List Char → List Char
  | '_' :: c :: rest => if c.isDigit then digitPartRest rest else '_' :: c :: rest
  | c :: rest => if c.isDigit then digitPartRest rest else c :: rest
  | [] => []

/-- Consume one full digit part (`digit ("_"? digit)*`); `none` when the input
does not start with a digit. -/
def digitPartChomp : List Char → Option (List Char)
  | c :: rest => if c.isDigit then some (digitPartRest rest) else none
  | [] => none

/-- Accept an optional exponent suffix `("e"|"E") sign? digitpart` followed by
end of input, or the empty remainder. -/
def acceptExponent : List Char → Bool
  | [] => true
  | c :: rest =>
    if c = 'e' ∨ c = 'E' then
      match digitPartChomp (stripSign rest) with
      | some [] => true
      | _ => false
    else false

/-- Accept the mantissa of a Python float literal (either `digitpart
["." [digitpart]]` or `"." digitpart`) followed by an optional exponent. -/
def acceptMantissa (l : List Char) : Bool :=
  match l with
  | '.' :: rest =>
    match digitPartChomp rest with
    | some rest' => acceptExponent rest'
    | none => false
  | _ =>
    match digitPartChomp l with
    | some rest =>
      match rest with
      | '.' :: rest' =>
        (match digitPartChomp rest' with
         | some rest'' => acceptExponent rest''
         | none => acceptExponent rest')
      | _ => acceptExponent rest
    | none => false

/-- Model of CPython `float(s)` acceptance: surrounding whitespace is
ignored, then an optional sign followed by `inf`, `infinity` or `nan` in any
case, or a float literal. -/
def pyFloatAccepts (l : List Char) : Bool :=
  let body := stripSign (pyStripChars l)
  let low := body.map Char.toLower
  if low = "inf".data ∨ low = "infinity".data ∨ low = "nan".data then true
  else acceptMantissa body

/-- Shallow embedding of `_looks_like_value` (analysis.py lines 127-143):
boolean-like words, or anything `float()` accepts after removing every
comma (`token.replace(",", "")`). -/
def looks_like_value (token : List Char) : Bool :=
  let cleaned := pyStripChars token
  if cleaned.isEmpty then false
  else
    let lowered : String := ⟨cleaned.map Char.toLower⟩
    if lowered = "true" ∨ lowered = "false" ∨ lowered = "yes" ∨
        lowered = "no" ∨ lowered = "pass" ∨ lowered = "fail" then true
    else pyFloatAccepts (cleaned.filter (· ≠ ','))

/-- Split at the first occurrence of a character, as Python
`str.split(c, 1)` when the character occurs. -/
def splitFirstChar (c : Char) : List Char → Option (List Char × List Char)
  | [] => none
  | x :: xs =>
    if x = c then some ([], xs)
    else
      match splitFirstChar c xs with
      | some (a, b) => some (x :: a, b)
      | none => none

/-- Split at the last occurrence of a character, as Python
`str.rsplit(c, 1)` when the character occurs. -/
def rsplitChar (c : Char) (l : List Char) : Option (List Char × List Char) :=
  match splitFirstChar c l.reverse with
  | some (revAfter, revBefore) => some (revBefore.reverse, revAfter.reverse)
  | none => none

/-- Children appended to a `Summary` element by `_emit_summary`: a dashed
banner becomes `Section`, a named value becomes `Item` (with optional text),
anything else becomes `Note`. -/
inductive SummaryEntry where
  | Section (text : String)
  | Item (name : String) (value : Option String)
  | Note (text : String)
  deriving DecidableEq

/-- Classification of one merged entry by `_emit_summary` (analysis.py lines
146-178): dashed banners wrapping non-empty text are sections; otherwise the
entry is split at the first colon, or at the last space when the final token
looks like a value; a non-empty key yields an `Item` whose text is the
non-empty value, and everything else yields a `Note`. -/
def classifyEntry (entry : List Char) : SummaryEntry :=
  let stripped := pyStripChars entry
  if stripped.head? = some '-' ∧ endsWithChar '-' stripped = true ∧
      (pyStripChars (pyStripCharChars '-' stripped)).isEmpty = false then
    .Section ⟨pyStripChars (pyStripCharChars '-' stripped)⟩
  else
    match splitFirstChar ':' stripped with
    | some (lhs, rhs) =>
      let key := pyStripChars lhs
      let value := pyStripChars rhs
      if key.isEmpty then .Note ⟨stripped⟩
      else .Item ⟨key⟩ (if value.isEmpty then none else some ⟨value⟩)
    | none =>
      match rsplitChar ' ' stripped with
      | some (lhs, rhs) =>
        if looks_like_value rhs then
          let key := pyStripChars lhs
          let value := pyStripChars rhs
          if key.isEmpty then .Note ⟨stripped⟩
          else .Item ⟨key⟩ (if value.isEmpty then none else some ⟨value⟩)
        else .Note ⟨stripped⟩
      | none => .Note ⟨stripped⟩

/-- Shallow embedding of `_emit_summary` (analysis.py lines 146-178), reified
as the list of children appended to the `Summary` element. -/
def emit_summary (summary : String) : List SummaryEntry :=
  (normalise_summary summary).map classifyEntry

/-! ### Report filename sanitisation -/

/-- Character class `[A-Za-z0-9_.-]` of `_report_filename`. -/
def allowedFilenameChar (c : Char) : Bool :=
  ('A' ≤ c && c ≤ 'Z') || ('a' ≤ c && c ≤ 'z') || ('0' ≤ c && c ≤ '9') ||
    c = '_' || c = '.' || c = '-'

/-- State-passing form of `re.sub(r"[^A-Za-z0-9_.-]+", "_", s)`: each maximal
run of disallowed characters collapses to a single underscore; `prevBad`
records whether the previous character was part of such a run. -/
def subSafeAux (prevBad : Bool) : List Char → List Char
  | [] => []
  | c :: rest =>
    if allowedFilenameChar c then c :: subSafeAux false rest
    else if prevBad then subSafeAux true rest
    else '_' :: subSafeAux true rest

/-- Collapse every maximal run of characters outside `[A-Za-z0-9_.-]` to one
underscore. -/
def reSubSafe (l : List Char) : List Char := subSafeAux false l

/-- Shallow embedding of `_report_filename` (analysis.py lines 293-304).
The two single-character `str.replace` calls on backslash and slash are a
character map. -/
def report_filename (study_id : String) (phantom : String) : String :=
  let replaced := study_id.data.map (fun c => if c = '\\' ∨ c = '/' then '_' else c)
  let safeStudy0 := pyStripCharChars '_' (reSubSafe replaced)
  let safePhantom0 := pyStripCharChars '_' (reSubSafe phantom.data)
  let safeStudy := if safeStudy0.isEmpty then "study".data else safeStudy0
  let safePhantom := if safePhantom0.isEmpty then "catphan".data else safePhantom0
  ⟨safeStudy ++ '_' :: safePhantom ++ ".pdf".data⟩

/-! ### Timestamps

A `datetime` is represented by the string its `isoformat` method returns;
`datetime.fromisoformat` is the stdlib's exact inverse of `isoformat`. -/

structure PyDatetime where
  iso : String
  deriving DecidableEq

/-- Python `datetime.isoformat()` under the ISO-string representation. -/
def PyDatetime.isoformat (d : PyDatetime) : String := d.iso

/-- Python `datetime.fromisoformat(s)` under the ISO-string representation. -/
def datetime_fromisoformat (s : String) : PyDatetime := ⟨s⟩

/-! ### Inventory scanner (`inventory.py`) -/

/-- Python `pathlib.PurePath.suffix` of a file name: the part from the last
dot, unless that dot is the first or last character of the name. -/
def pathSuffixChars (l : List Char) : List Char :=
  match rsplitChar '.' l with
  | none => []
  | some (before, after) =>
    if before.isEmpty ∨ after.isEmpty then [] else '.' :: after

/-- Python `str.lower()` (character-wise, as for the ASCII extension
strings this program compares). -/
def py_lower (s : String) : String := ⟨s.data.map Char.toLower⟩

/-- Lower-cased suffix `Path(name).suffix.lower()` used by `_filter_files`
and the record's extension set. -/
def path_suffix_lower (name : String) : String :=
  ⟨(pathSuffixChars name.data).map Char.toLower⟩

/-- Shallow embedding of `_filter_files` (inventory.py lines 113-116):
filenames whose lower-cased suffix belongs to the (already lower-cased)
extension collection. -/
def filter_files (filenames : List String) (extensions : List String) : List String :=
  filenames.filter (fun name => extensions.contains (path_suffix_lower name))

/-- The default `DEFAULT_EXTENSIONS = (".dcm", ".ima")`. -/
def DEFAULT_EXTENSIONS : List String := [".dcm", ".ima"]

mutual

/-- A directory tree: the files directly inside a directory, and its named
subdirectories.  Mutual with `DirList` so recursion stays structural. -/
inductive DirTree where
  | node (files : List String) (subdirs : DirList)

inductive DirList where
  | nil
  | cons (name : String) (child : DirTree) (rest : DirList)

end

/-- Names of the immediate subdirectories. -/
def DirList.names : DirList → List String
  | .nil => []
  | .cons name _ rest => name :: rest.names

/-- No duplicates in a list of sibling names (real directory listings never
repeat a name). -/
def namesNodup : List String → Bool
  | [] => true
  | x :: xs => (!xs.contains x) && namesNodup xs

mutual

/-- A filesystem tree is well formed when sibling directory names are
pairwise distinct, recursively. -/
def DirTree.wf : DirTree → Bool
  | .node _ subs => namesNodup subs.names && subs.wf

/-- Well-formedness of every child tree. -/
def DirList.wf : DirList → Bool
  | .nil => true
  | .cons _ child rest => child.wf && rest.wf

end

mutual

/-- The `os.walk` loop of `build_inventory` (inventory.py lines 88-107) on a
directory at relative segment path `rel`: if the extension filter matches,
record `(rel, matching files)` and prune (`dirnames[:] = []`); otherwise
recurse into the subdirectories in listing order. -/
def walkTree (exts : List String) (rel : List String) : DirTree → List (List String × List String)
  | .node files subs =>
    let matching := filter_files files exts
    if matching.isEmpty then walkSubs exts rel subs
    else [(rel, matching)]

/-- Top-down traversal of the subdirectory list. -/
def walkSubs (exts : List String) (rel : List String) : DirList → List (List String × List String)
  | .nil => []
  | .cons name child rest =>
    walkTree exts (rel ++ [name]) child ++ walkSubs exts rel rest

end

/-- Rendering of `current_path.relative_to(root_path)` as a string: `"."` for
the root itself, otherwise the segments joined by the path separator. -/
def render_relative (rel : List String) : String :=
  if rel.isEmpty then "." else String.intercalate "/" rel

/-- Rendering of the absolute directory path `os.walk` reports: the root for
an empty segment list, otherwise root plus the joined segments. -/
def join_path (root : String) (rel : List String) : String :=
  if rel.isEmpty then root else root ++ "/" ++ String.intercalate "/" rel

/-- Shallow embedding of `StudyRecord` (inventory.py lines 19-43), with
`Path` fields in their string rendering. -/
structure StudyRecord where
  path : String
  relative_path : String
  file_count : Nat
  extensions : Finset String
  deriving DecidableEq

/-- Serialised form produced by `StudyRecord.to_dict`. -/
structure StudyRecordDict where
  path : String
  relative_path : String
  file_count : Nat
  extensions : List String
  deriving DecidableEq

/-- Shallow embedding of `StudyRecord.to_dict` (inventory.py lines 35-43):
string renderings of the paths and the sorted extension set. -/
def StudyRecord.to_dict (r : StudyRecord) : StudyRecordDict :=
  { path := r.path
    relative_path := r.relative_path
    file_count := r.file_count
    extensions := r.extensions.sort (· ≤ ·) }

/-- Modelled from the spec: `StudyRecord.from_dict` is called by
`StudyAnalysisResult.from_dict` (analysis.py line 209) but no such method
appears in the sources; per the spec's lossless round-trip requirement for
serialised batches, it reconstructs each field of `to_dict` output —
`Path(payload["path"])`, `Path(payload["relative_path"])`,
`payload["file_count"]`, `set(payload["extensions"])`. -/
def StudyRecord.from_dict (d : StudyRecordDict) : StudyRecord :=
  { path := d.path
    relative_path := d.relative_path
    file_count := d.file_count
    extensions := d.extensions.toFinset }

/-- Shallow embedding of `StudyInventory` (inventory.py lines 46-67). -/
structure StudyInventory where
  root : String
  generated_at : PyDatetime
  studies : List StudyRecord
  deriving DecidableEq

/-- The `StudyRecord` materialised for one matched directory
(inventory.py lines 97-102). -/
def record_of_hit (root : String) (hit : List String × List String) : StudyRecord :=
  { path := join_path root hit.1
    relative_path := render_relative hit.1
    file_count := hit.2.length
    extensions := (hit.2.map path_suffix_lower).toFinset }

/-- Shallow embedding of `build_inventory` (inventory.py lines 70-110) for an
existing root directory `tree`: lower-case the extension set, walk with
pruning, and materialise one record per matched directory; `now` stands for
`datetime.now(UTC)`. -/
def build_inventory (root : String) (tree : DirTree) (exts : List String)
    (now : PyDatetime) : StudyInventory :=
  { root := root
    generated_at := now
    studies := (walkTree (exts.map py_lower) [] tree).map (record_of_hit root) }

/-! ### Analysis results (`analysis.py`) -/

mutual

/-- A Python value as returned by `results_data()`: JSON-native scalars and
containers, plus arbitrary non-JSON objects (`obj`) carried with their
`str()` rendering. -/
inductive PyVal where
  | str (s : String)
  | int (n : Int)
  | bool (b : Bool)
  | none
  | obj (reprStr : String)
  | list (elems : PyList)
  | dict (fields : PyFields)

inductive PyList where
  | nil
  | cons (v : PyVal) (rest : PyList)

inductive PyFields where
  | nil
  | cons (key : String) (v : PyVal) (rest : PyFields)

end

mutual

/-- Effect of `json.loads(json.dumps(·, default=str))` on one value:
JSON-native values survive structurally; anything else is replaced by its
`str()` rendering. -/
def serialisePy : PyVal → Json
  | .str s => .str s
  | .int n => .num n
  | .bool b => .bool b
  | .none => .null
  | .obj r => .str r
  | .list l => .arr (serialisePyList l)
  | .dict f => .obj (serialisePyFields f)

/-- Elementwise serialisation of a Python list. -/
def serialisePyList : PyList → JsonList
  | .nil => .nil
  | .cons v rest => .cons (serialisePy v) (serialisePyList rest)

/-- Fieldwise serialisation of a Python dict. -/
def serialisePyFields : PyFields → JsonFields
  | .nil => .nil
  | .cons k v rest => .cons k (serialisePy v) (serialisePyFields rest)

end

/-- Shallow embedding of `_serialise_metrics` (analysis.py lines 75-78) on a
`results_data()` dict. -/
def serialise_metrics (metrics : PyFields) : JsonFields :=
  serialisePyFields metrics

/-- Shallow embedding of `StudyAnalysisResult` (analysis.py lines 181-198). -/
structure StudyAnalysisResult where
  study : StudyRecord
  success : Bool
  summary : Option String := Option.none
  metrics : JsonFields := .nil
  error : Option String := Option.none
  deriving DecidableEq

/-- Serialised form produced by `StudyAnalysisResult.to_dict`. -/
structure StudyAnalysisResultDict where
  study : StudyRecordDict
  success : Bool
  summary : Option String
  metrics : JsonFields
  error : Option String
  deriving DecidableEq

/-- Shallow embedding of `StudyAnalysisResult.to_dict` (analysis.py lines
191-198). -/
def StudyAnalysisResult.to_dict (r : StudyAnalysisResult) : StudyAnalysisResultDict :=
  { study := r.study.to_dict
    success := r.success
    summary := r.summary
    metrics := r.metrics
    error := r.error }

/-- Shallow embedding of `StudyAnalysisResult.from_dict` (analysis.py lines
200-214): `payload.get("metrics") or {}` replaces a falsy (empty) dict by an
empty dict, the `isinstance` guard always holds for the typed field, and
`bool` / `dict` coercions are identities on their own types. -/
def StudyAnalysisResult.from_dict (p : StudyAnalysisResultDict) : StudyAnalysisResult :=
  let metricsPayload := match p.metrics with
    | .nil => JsonFields.nil
    | m => m
  { study := StudyRecord.from_dict p.study
    success := p.success
    summary := p.summary
    metrics := metricsPayload
    error := p.error }

/-- Shallow embedding of `BatchAnalysis` (analysis.py lines 217-258). -/
structure BatchAnalysis where
  phantom : String
  generated_at : PyDatetime
  results : List StudyAnalysisResult
  deriving DecidableEq

/-- Shallow embedding of the `success_count` property (analysis.py lines
225-227): `sum(1 for result in self.results if result.success)`. -/
def BatchAnalysis.success_count (b : BatchAnalysis) : Nat :=
  b.results.countP (·.success)

/-- Shallow embedding of the `failure_count` property (analysis.py lines
229-231). -/
def BatchAnalysis.failure_count (b : BatchAnalysis) : Nat :=
  b.results.countP (fun r => !r.success)

/-- Shallow embedding of `successful_results` (analysis.py lines 255-258). -/
def BatchAnalysis.successful_results (b : BatchAnalysis) : List StudyAnalysisResult :=
  b.results.filter (·.success)

/-- Serialised form produced by `BatchAnalysis.to_dict`. -/
structure BatchAnalysisDict where
  phantom : String
  generated_at : String
  success_count : Nat
  failure_count : Nat
  results : List StudyAnalysisResultDict
  deriving DecidableEq

/-- Shallow embedding of `BatchAnalysis.to_dict` (analysis.py lines 233-240):
the timestamp is serialised via `isoformat()`. -/
def BatchAnalysis.to_dict (b : BatchAnalysis) : BatchAnalysisDict :=
  { phantom := b.phantom
    generated_at := b.generated_at.isoformat
    success_count := b.success_count
    failure_count := b.failure_count
    results := b.results.map (·.to_dict) }

/-- Shallow embedding of `BatchAnalysis.from_dict` (analysis.py lines
242-253): `str` on the phantom string is the identity, the timestamp is
restored with `datetime.fromisoformat`, and the derived counts in the payload
are ignored. -/
def BatchAnalysis.from_dict (p : BatchAnalysisDict) : BatchAnalysis :=
  { phantom := p.phantom
    generated_at := datetime_fromisoformat p.generated_at
    results := p.results.map StudyAnalysisResult.from_dict }

/-! ### Orchestrator -/

/-- Outcome of the per-study `try` block of `run_catphan_analysis`
(analysis.py lines 268-280): either every stage — `_create_catphan_instance`,
`analyze()`, `results()`, `results_data()` — succeeds, yielding the summary
text and the raw metrics payload, or some stage raises an exception whose
`str()` is `msg`. -/
inductive AnalyzerOutcome where
  | ok (summary : String) (data : PyFields)
  | raises (msg : String)

/-- Shallow embedding of `run_catphan_analysis` (analysis.py lines 261-290).
`load` is the outcome of `_load_catphan_class(phantom_name)` — `.error` when
pylinac is missing or the phantom class is absent, in which case the whole
batch aborts; `behave` is the opaque per-study analyzer capability; `now`
stands for `datetime.now(UTC)`. -/
def run_catphan_analysis (load : Except String Unit)
    (behave : StudyRecord → AnalyzerOutcome) (inventory : StudyInventory)
    (now : PyDatetime) (phantom_name : String) : Except String BatchAnalysis :=
  match load with
  | .error e => .error e
  | .ok _ =>
    .ok { phantom := phantom_name
          generated_at := now
          results := inventory.studies.map (fun study =>
            match behave study with
            | .ok summary data =>
              { study := study
                success := true
                summary := some summary
                metrics := serialise_metrics data
                error := Option.none }
            | .raises msg =>
              { study := study
                success := false
                summary := Option.none
                metrics := .nil
                error := some msg }) }

/-! ### Result exporter (`export_pass_results_to_xml`, analysis.py lines
307-399)

The persisted XML document is modelled by its list of `Study` elements; the
filesystem interactions are reified as an effect trace.  `load` is the
outcome of `_load_catphan_class(batch.phantom)` (analysis.py line 331, called
outside any `try` block); `render` gives, for the `i`-th successful result,
how far the best-effort report rendering gets (the `try` block at lines
367-374: construction / `analyze()` may raise before the reports directory is
created, or `publish_pdf` may raise after). -/

/-- One `Study` element of the export document, with its attributes and child
elements. -/
structure StudyEl where
  id : String
  phantom : String
  exported_at : String
  absolute_path : String
  report : Option String
  summary : Option (List SummaryEntry)
  metrics : Option (List (Option String × Option String))
  deriving DecidableEq

/-- The export document: the `Study` children of the root element. -/
abbrev Doc := List StudyEl

/-- How far the best-effort per-study report rendering gets. -/
inductive RenderOutcome where
  | okRender
  | failBeforeMkdir
  | failAfterMkdir
  deriving DecidableEq

/-- Filesystem actions of `export_pass_results_to_xml`, in program order. -/
inductive FsEffect where
  | readDest
  | mkdirReports
  | publishPdf (path : String)
  | mkdirDestParent
  | writeDest
  deriving DecidableEq

/-- Python `Path.parent` rendering for the (already absolute) destination. -/
def path_parent (p : String) : String :=
  match rsplitChar '/' p.data with
  | some (before, _) => if before.isEmpty then "/" else ⟨before⟩
  | Option.none => "."

/-- Python `Path.stem`: the final component without its suffix. -/
def path_stem (p : String) : String :=
  let name := match rsplitChar '/' p.data with
    | some (_, after) => after
    | Option.none => p.data
  let suffix := pathSuffixChars name
  ⟨name.take (name.length - suffix.length)⟩

/-- The sibling reports directory
`destination.parent / f"{destination.stem}_reports"` (analysis.py line
329). -/
def reports_dir_for (destination : String) : String :=
  path_parent destination ++ "/" ++ path_stem destination ++ "_reports"

/-- The `(id, phantom)` attribute pairs of the existing `Study` elements
(analysis.py lines 340-343). -/
def existing_keys (d : Doc) : List (String × String) :=
  d.map (fun e => (e.id, e.phantom))

/-- The `Metric` children written for a result's metrics (analysis.py lines
383-390): one child per flattened pair, a `name` attribute only for a truthy
key, text only for a non-`None` value. -/
def metric_children (metrics : JsonFields) : List (Option String × Option String) :=
  (flatten_metrics (.obj metrics) "").map (fun kv =>
    ((if strTruthy kv.1 then some kv.1 else Option.none),
     match kv.2 with
     | .null => Option.none
     | v => some (pyStr v)))

/-- The `Summary` child written for a result (analysis.py lines 379-381):
present only when `result.summary` is truthy (neither `None` nor empty). -/
def summary_children (summary : Option String) : Option (List SummaryEntry) :=
  match summary with
  | some s => if strTruthy s then some (emit_summary s) else Option.none
  | Option.none => Option.none

/-- Accumulator of the export loop: the in-memory `Study` elements, the
mutable `existing_keys` set, both counters, and the effect trace so far. -/
structure ExportState where
  entries : Doc
  keys : List (String × String)
  exported : Nat
  skipped : Nat
  effects : List FsEffect
  deriving DecidableEq

/-- The `for result in successes` loop of `export_pass_results_to_xml`
(analysis.py lines 348-393): a result whose `(str(relative_path), phantom)`
key is already known is skipped; otherwise a `Study` element is appended, the
report is attached only when the best-effort rendering succeeds, and the key
is added.  `i` numbers the successful results; `now_iso i` stands for the
`datetime.now(UTC).isoformat()` stamped on the `i`-th entry. -/
def export_step (phantom destination : String) (render : Nat → RenderOutcome)
    (now_iso : Nat → String) :
    List StudyAnalysisResult → Nat → ExportState → ExportState
  | [], _, st => st
  | result :: rest, i, st =>
    let study_id := result.study.relative_path
    let key := (study_id, phantom)
    if st.keys.contains key then
      export_step phantom destination render now_iso rest (i + 1)
        { st with skipped := st.skipped + 1 }
    else
      let rpath := reports_dir_for destination ++ "/" ++
        report_filename study_id phantom
      let rendered : Option String × List FsEffect :=
        match render i with
        | .okRender => (some rpath, [FsEffect.mkdirReports, FsEffect.publishPdf rpath])
        | .failBeforeMkdir => (Option.none, [])
        | .failAfterMkdir => (Option.none, [FsEffect.mkdirReports])
      let entry : StudyEl :=
        { id := study_id
          phantom := phantom
          exported_at := now_iso i
          absolute_path := result.study.path
          report := rendered.1
          summary := summary_children result.summary
          metrics :=
            let fm := metric_children result.metrics
            if fm.isEmpty then Option.none else some fm }
      export_step phantom destination render now_iso rest (i + 1)
        { entries := st.entries ++ [entry]
          keys := key :: st.keys
          exported := st.exported + 1
          skipped := st.skipped
          effects := st.effects ++ rendered.2 }

/-- Initial in-memory document and effect trace (analysis.py lines 333-338):
an existing destination is parsed, an absent one starts a fresh empty root
element. -/
def export_start (dest : Option Doc) : Doc × List FsEffect :=
  match dest with
  | some d => (d, [FsEffect.readDest])
  | Option.none => ([], [])

/-- Loop state before the first iteration: the initial document with its
`existing_keys` set, zero counters, and the read effect when the destination
existed. -/
def export_state0 (dest : Option Doc) : ExportState :=
  { entries := (export_start dest).1
    keys := existing_keys (export_start dest).1
    exported := 0
    skipped := 0
    effects := (export_start dest).2 }

/-- Shallow embedding of `export_pass_results_to_xml` (analysis.py lines
307-399).  `dest` is the current content of the destination file (`none`
when absent); the returned triple carries the `(exported, skipped)` counts,
the destination content after the call, and the filesystem effect trace. -/
def export_pass_results_to_xml (load : Except String Unit)
    (render : Nat → RenderOutcome) (now_iso : Nat → String)
    (batch : BatchAnalysis) (destination : String) (dest : Option Doc) :
    Except String ((Nat × Nat) × Option Doc × List FsEffect) :=
  let successes := batch.successful_results
  if successes.isEmpty then .ok ((0, 0), dest, [])
  else
    match load with
    | .error e => .error e
    | .ok _ =>
      let st := export_step batch.phantom destination render now_iso successes 0
        (export_state0 dest)
      if st.exported ≠ 0 then
        .ok ((st.exported, st.skipped), some st.entries,
          st.effects ++ [FsEffect.mkdirDestParent, FsEffect.writeDest])
      else
        .ok ((st.exported, st.skipped), dest, st.effects)

/-- The `(exported, skipped)` counts of an export outcome, when it did not
raise. -/
def export_counts (r : Except String ((Nat × Nat) × Option Doc × List FsEffect)) :
    Option (Nat × Nat) :=
  match r with
  | .ok (c, _, _) => some c
  | .error _ => Option.none

/-- The destination content after an export outcome, when it did not
raise. -/
def export_dest (r : Except String ((Nat × Nat) × Option Doc × List FsEffect)) :
    Option (Option Doc) :=
  match r with
  | .ok (_, d, _) => some d
  | .error _ => Option.none

/-- A successful analysis result, as the orchestrator builds one
(analysis.py lines 273-280). -/
def mk_success_result (study : StudyRecord) (summary : Option String)
    (metrics : JsonFields) : StudyAnalysisResult :=
  { study := study
    success := true
    summary := summary
    metrics := metrics
    error := Option.none }

/-! ### Theorems -/

/-- A JSON value that is neither a mapping nor a sequence. -/
def Json.isScalar : Json → Bool
  | .arr _ => false
  | .obj _ => false
  | _ => true

/-- The key/value pairs of a `JsonFields` in insertion order. -/
def JsonFields.toList : JsonFields → List (String × Json)
  | .nil => []
  | .cons k v rest => (k, v) :: rest.toList

/-- The elements of a `JsonList` in order. -/
def JsonList.toList : JsonList → List Json
  | .nil => []
  | .cons v rest => v :: rest.toList

theorem strTruthy_iff (p : String) : strTruthy p = true ↔ p ≠ "" := by
  cases p with
  | mk d =>
    cases d <;> simp [strTruthy, String.ext_iff]

theorem childPrefixKey_eq (p key : String) :
    childPrefixKey p key = if p = "" then key else p ++ "." ++ key := by
  by_cases h : p = ""
  · simp [childPrefixKey, h, strTruthy]
  · rw [childPrefixKey, if_pos ((strTruthy_iff p).2 h), if_neg h]

theorem childPrefixIndex_eq (p : String) (i : Nat) :
    childPrefixIndex p i =
      if p = "" then "[" ++ toString i ++ "]" else p ++ "[" ++ toString i ++ "]" := by
  by_cases h : p = ""
  · simp [childPrefixIndex, h, strTruthy]
  · rw [childPrefixIndex, if_pos ((strTruthy_iff p).2 h), if_neg h]

theorem flattenFields_toList (fields : JsonFields) (p : String) :
    flattenFields fields p =
      fields.toList.flatMap
        (fun kv => flatten_metrics kv.2 (childPrefixKey p kv.1)) :=
  match fields with
  | .nil => by simp [flattenFields, JsonFields.toList]
  | .cons k v rest => by
    simp [flattenFields, JsonFields.toList, flattenFields_toList rest p]

theorem flattenElems_toList (elems : JsonList) (p : String) (i : Nat) :
    flattenElems elems p i =
      (elems.toList.enumFrom i).flatMap
        (fun iv => flatten_metrics iv.2 (childPrefixIndex p iv.1)) :=
  match elems with
  | .nil => by simp [flattenElems, JsonList.toList]
  | .cons v rest => by
    simp [flattenElems, JsonList.toList, List.enumFrom_cons,
      flattenElems_toList rest p (i + 1)]

/-- C8: `_flatten_metrics` flattens a mapping node to one entry group per key
at path `parentPath.key` (bare `key` at the root), a non-text sequence node
to one entry group per element at path `parentPath[index]` (bare `[index]` at
the root) in index order, and a scalar leaf to the single pair
`(currentPath, value)` — the path being empty when the whole tree is a bare
scalar; order follows input traversal order in every case. -/
theorem flatten_metrics_node_shape :
    (∀ (fields : JsonFields) (p : String),
        flatten_metrics (.obj fields) p =
          fields.toList.flatMap (fun kv =>
            flatten_metrics kv.2 (if p = "" then kv.1 else p ++ "." ++ kv.1)))
    ∧ (∀ (elems : JsonList) (p : String),
        flatten_metrics (.arr elems) p =
          elems.toList.enum.flatMap (fun iv =>
            flatten_metrics iv.2
              (if p = "" then "[" ++ toString iv.1 ++ "]"
               else p ++ "[" ++ toString iv.1 ++ "]")))
    ∧ (∀ (v : Json) (p : String), v.isScalar = true → flatten_metrics v p = [(p, v)]) := by
  refine ⟨fun fields p => ?_, fun elems p => ?_, fun v p hv => ?_⟩
  · rw [flatten_metrics, flattenFields_toList]
    exact List.flatMap_congr (fun kv _ => by rw [childPrefixKey_eq])
  · rw [flatten_metrics, flattenElems_toList]
    simp only [List.enum]
    exact List.flatMap_congr (fun iv _ => by rw [childPrefixIndex_eq])
  · cases v <;> simp_all [Json.isScalar, flatten_metrics]

/-- Witness for `flatten_metrics_node_shape`: the scalar clause evaluated at
a bare scalar tree with the empty root path. -/
theorem flatten_metrics_node_shape_witness :
    flatten_metrics (Json.str "x") "" = [("", Json.str "x")] :=
  flatten_metrics_node_shape.2.2 (Json.str "x") "" (by decide)

theorem subSafeAux_allowed (l : List Char) :
    ∀ (b : Bool), ∀ c ∈ subSafeAux b l, allowedFilenameChar c = true := by
  induction l with
  | nil => intro b c hc; simp [subSafeAux] at hc
  | cons x xs ih =>
    intro b c hc
    simp only [subSafeAux] at hc
    by_cases hx : allowedFilenameChar x
    · rw [if_pos hx] at hc
      cases List.mem_cons.mp hc with
      | inl h => subst h; exact hx
      | inr h => exact ih false c h
    · rw [if_neg hx] at hc
      cases b with
      | true => exact ih true c (by simpa using hc)
      | false =>
        cases List.mem_cons.mp (by simpa using hc) with
        | inl h => subst h; decide
        | inr h => exact ih true c h

theorem mem_of_pyStripCharChars {x c : Char} {l : List Char}
    (h : x ∈ pyStripCharChars c l) : x ∈ l := by
  simp only [pyStripCharChars, List.mem_reverse] at h
  have h1 : x ∈ (l.dropWhile (· = c)).reverse :=
    (List.dropWhile_sublist _).subset h
  rw [List.mem_reverse] at h1
  exact (List.dropWhile_sublist _).subset h1

theorem fallback_ne_nil (s d : List Char) (hd : d ≠ []) :
    (if s.isEmpty then d else s) ≠ [] := by
  by_cases h : s.isEmpty
  · simpa [h] using hd
  · simpa [h] using by simpa [List.isEmpty_iff] using h

theorem fallback_allowed (s d : List Char)
    (hs : ∀ c ∈ s, allowedFilenameChar c = true)
    (hd : ∀ c ∈ d, allowedFilenameChar c = true) :
    ∀ c ∈ (if s.isEmpty then d else s), allowedFilenameChar c = true := by
  by_cases h : s.isEmpty
  · simpa [h] using hd
  · simpa [h] using hs

/-- C9: `_report_filename` is pure and total — for every study id and phantom
name it returns `<safe_study>_<safe_phantom>.pdf` where both components are
non-empty and every character of each component lies in `[A-Za-z0-9_.-]`. -/
theorem report_filename_sanitises (study_id phantom : String) :
    ∃ a b : List Char,
      report_filename study_id phantom = ⟨a ++ '_' :: (b ++ ".pdf".data)⟩ ∧
      a ≠ [] ∧ b ≠ [] ∧
      (∀ c ∈ a, allowedFilenameChar c = true) ∧
      (∀ c ∈ b, allowedFilenameChar c = true) := by
  refine
    ⟨(if (pyStripCharChars '_' (reSubSafe (study_id.data.map
          (fun c => if c = '\\' ∨ c = '/' then '_' else c)))).isEmpty
        then "study".data
        else pyStripCharChars '_' (reSubSafe (study_id.data.map
          (fun c => if c = '\\' ∨ c = '/' then '_' else c)))),
     (if (pyStripCharChars '_' (reSubSafe phantom.data)).isEmpty
        then "catphan".data
        else pyStripCharChars '_' (reSubSafe phantom.data)),
     ?_, ?_, ?_, ?_, ?_⟩
  · rw [String.ext_iff]
    simp [report_filename, List.append_assoc]
  · exact fallback_ne_nil _ _ (by decide)
  · exact fallback_ne_nil _ _ (by decide)
  · exact fallback_allowed _ _
      (fun c hc => subSafeAux_allowed _ false c (mem_of_pyStripCharChars hc))
      (by decide)
  · exact fallback_allowed _ _
      (fun c hc => subSafeAux_allowed _ false c (mem_of_pyStripCharChars hc))
      (by decide)

theorem StudyRecord_roundtrip (r : StudyRecord) :
    StudyRecord.from_dict r.to_dict = r := by
  cases r with
  | mk p rp fc ex =>
    simp [StudyRecord.from_dict, StudyRecord.to_dict, Finset.sort_toFinset]

theorem StudyAnalysisResult_roundtrip (r : StudyAnalysisResult) :
    StudyAnalysisResult.from_dict r.to_dict = r := by
  cases r with
  | mk study success summary metrics error =>
    cases metrics <;>
      simp [StudyAnalysisResult.from_dict, StudyAnalysisResult.to_dict,
        StudyRecord_roundtrip]

/-- C1: deserialising a serialised batch reproduces it exactly —
`BatchAnalysis.from_dict (b.to_dict()) = b` for every batch, any phantom
name, timestamp and results, with the `generated_at` timestamp surviving at
full precision (`fromisoformat ∘ isoformat` is the identity). -/
theorem BatchAnalysis_roundtrip (b : BatchAnalysis) :
    BatchAnalysis.from_dict b.to_dict = b := by
  cases b with
  | mk phantom generated_at results =>
    cases generated_at with
    | mk iso =>
      simp [BatchAnalysis.from_dict, BatchAnalysis.to_dict,
        datetime_fromisoformat, PyDatetime.isoformat, List.map_map,
        Function.comp_def, StudyAnalysisResult_roundtrip]

/-- C5: once the analyzer class resolves, `run_catphan_analysis` returns
normally with exactly one result per study in inventory order; a study whose
analyzer stage raises yields a failed result carrying the exception message
as `error`, a study whose stages all succeed yields a successful result, and
no per-study exception escapes.  In particular, for 3 studies where the
second raises `"boom"`, the batch has `success_count = 2` and
`failure_count = 1`. -/
theorem run_catphan_analysis_isolation :
    (∀ (behave : StudyRecord → AnalyzerOutcome) (inventory : StudyInventory)
        (now : PyDatetime) (phantom_name : String),
      ∃ batch : BatchAnalysis,
        run_catphan_analysis (.ok ()) behave inventory now phantom_name = .ok batch ∧
        batch.results.length = inventory.studies.length ∧
        ∀ (i : Nat) (s : StudyRecord), inventory.studies[i]? = some s →
          ∃ r : StudyAnalysisResult, batch.results[i]? = some r ∧ r.study = s ∧
            (∀ msg, behave s = .raises msg →
              r.success = false ∧ r.error = some msg) ∧
            (∀ summary data, behave s = .ok summary data →
              r.success = true ∧ r.error = Option.none))
    ∧ (∀ now : PyDatetime, ∃ batch : BatchAnalysis,
        run_catphan_analysis (.ok ())
          (fun s => if s.relative_path = "b" then .raises "boom" else .ok "fine" .nil)
          ⟨"root", now,
            [⟨"root/a", "a", 1, ∅⟩, ⟨"root/b", "b", 1, ∅⟩, ⟨"root/c", "c", 1, ∅⟩]⟩
          now "CatPhan504" = .ok batch ∧
        batch.success_count = 2 ∧ batch.failure_count = 1 ∧
        (batch.results[1]?).map (·.error) = some (some "boom")) := by
  constructor
  · intro behave inventory now phantom_name
    refine ⟨_, rfl, by simp [run_catphan_analysis], ?_⟩
    intro i s hs
    simp only [run_catphan_analysis]
    refine ⟨_, by rw [List.getElem?_map, hs]; rfl, ?_, ?_, ?_⟩
    · cases hb : behave s <;> simp [hb]
    · intro msg hb
      simp [hb]
    · intro summary data hb
      simp [hb]
  · intro now
    exact ⟨_, rfl, rfl, rfl, rfl⟩

/-- Witness for `run_catphan_analysis_isolation`: a one-study inventory whose
analyzer raises `"x"` yields a failed result with `error = some "x"`. -/
theorem run_catphan_analysis_isolation_witness :
    ∃ (batch : BatchAnalysis) (r : StudyAnalysisResult),
      run_catphan_analysis (.ok ()) (fun _ => .raises "x")
        ⟨"r", ⟨"t"⟩, [⟨"r/a", "a", 1, (∅ : Finset String)⟩]⟩ ⟨"t"⟩ "P" = .ok batch ∧
      batch.results[0]? = some r ∧ r.success = false ∧ r.error = some "x" := by
  obtain ⟨batch, hok, _, hidx⟩ :=
    run_catphan_analysis_isolation.1 (fun _ => .raises "x")
      ⟨"r", ⟨"t"⟩, [⟨"r/a", "a", 1, (∅ : Finset String)⟩]⟩ ⟨"t"⟩ "P"
  obtain ⟨r, hr, _, hfail, _⟩ := hidx 0 ⟨"r/a", "a", 1, (∅ : Finset String)⟩ rfl
  obtain ⟨hsucc, herr⟩ := hfail "x" rfl
  exact ⟨batch, r, hok, hr, hsucc, herr⟩

/-- C7: a batch with no successful result makes `export_pass_results_to_xml`
return `(0, 0)` at once with no filesystem action at all: the destination is
left exactly as it was (in particular an absent destination is not created)
and the effect trace is empty — nothing is read, written, or mkdir-ed.  This
holds even when the analyzer class would not resolve, because the
early-return precedes `_load_catphan_class`. -/
theorem export_noop_on_no_success (load : Except String Unit)
    (render : Nat → RenderOutcome) (now_iso : Nat → String)
    (batch : BatchAnalysis) (destination : String) (dest : Option Doc)
    (h : batch.successful_results = []) :
    export_pass_results_to_xml load render now_iso batch destination dest =
      .ok ((0, 0), dest, []) := by
  simp [export_pass_results_to_xml, h]

/-- Witness for `export_noop_on_no_success`: a batch holding one failed
result, exported to an absent destination with an unresolvable analyzer
class, returns `(0, 0)`, leaves the destination absent and performs no
filesystem action. -/
theorem export_noop_on_no_success_witness :
    (BatchAnalysis.mk "CatPhan504" ⟨"t"⟩
        [⟨⟨"/r/a", "a", 1, ∅⟩, false, Option.none, .nil, some "err"⟩]).successful_results
        = [] ∧
    export_pass_results_to_xml (.error "no pylinac") (fun _ => .okRender)
      (fun _ => "t")
      (BatchAnalysis.mk "CatPhan504" ⟨"t"⟩
        [⟨⟨"/r/a", "a", 1, ∅⟩, false, Option.none, .nil, some "err"⟩])
      "/out/results.xml" Option.none = .ok ((0, 0), Option.none, []) := by
  refine ⟨rfl, ?_⟩
  exact export_noop_on_no_success _ _ _ _ _ _ rfl

theorem export_step_counts_ext (ph destination : String)
    (r1 r2 : Nat → RenderOutcome) (n1 n2 : Nat → String)
    (results : List StudyAnalysisResult) :
    ∀ (i j : Nat) (st1 st2 : ExportState),
      st1.keys = st2.keys → st1.exported = st2.exported → st1.skipped = st2.skipped →
      (export_step ph destination r1 n1 results i st1).exported =
        (export_step ph destination r2 n2 results j st2).exported ∧
      (export_step ph destination r1 n1 results i st1).skipped =
        (export_step ph destination r2 n2 results j st2).skipped := by
  induction results with
  | nil =>
    intro i j st1 st2 hk he hs
    simp [export_step, he, hs]
  | cons r rest ih =>
    intro i j st1 st2 hk he hs
    simp only [export_step]
    rw [← hk]
    by_cases hc : st1.keys.contains (r.study.relative_path, ph) = true
    · rw [if_pos hc, if_pos hc]
      exact ih (i + 1) (j + 1) _ _ rfl he
        (by show st1.skipped + 1 = st2.skipped + 1; rw [hs])
    · rw [if_neg hc, if_neg hc]
      exact ih (i + 1) (j + 1) _ _ rfl
        (by show st1.exported + 1 = st2.exported + 1; rw [he]) hs

theorem export_step_report_none (ph destination : String)
    (render : Nat → RenderOutcome) (n : Nat → String)
    (hrender : ∀ i, render i ≠ .okRender)
    (results : List StudyAnalysisResult) :
    ∀ (i : Nat) (st : ExportState),
      ∀ e ∈ (export_step ph destination render n results i st).entries,
        e ∈ st.entries ∨ e.report = Option.none := by
  induction results with
  | nil =>
    intro i st e he
    exact Or.inl (by simpa [export_step] using he)
  | cons r rest ih =>
    intro i st e he
    simp only [export_step] at he
    by_cases hc : st.keys.contains (r.study.relative_path, ph) = true
    · rw [if_pos hc] at he
      rcases ih (i + 1) { st with skipped := st.skipped + 1 } e he with hmem | hrep
      · exact Or.inl hmem
      · exact Or.inr hrep
    · rw [if_neg hc] at he
      rcases ih (i + 1) _ e he with hmem | hrep
      · simp only [List.mem_append, List.mem_singleton] at hmem
        rcases hmem with hmem | rfl
        · exact Or.inl hmem
        · refine Or.inr ?_
          cases hro : render i with
          | okRender => exact absurd hro (hrender i)
          | failBeforeMkdir => simp [hro]
          | failAfterMkdir => simp [hro]
      · exact Or.inr hrep

/-- C2 (counterexample to the claim as stated): the analyzer class lookup of
the export (`_load_catphan_class`, analysis.py line 331) runs outside any
`try` block, so when the analyzer cannot be resolved at all, a batch with one
successful result makes `export_pass_results_to_xml` raise instead of
exporting without a report reference. -/
theorem export_fails_when_class_unresolvable :
    export_pass_results_to_xml
      (.error "The pylinac package is required to run Catphan analysis.")
      (fun _ => .okRender) (fun _ => "T")
      (BatchAnalysis.mk "CatPhan504" ⟨"t"⟩
        [mk_success_result ⟨"/r/s", "s", 1, ∅⟩ Option.none .nil])
      "/o/res.xml" Option.none =
    .error "The pylinac package is required to run Catphan analysis." := by
  rfl

/-- C2 (amended): once the analyzer class of the batch resolves, any failure
of the per-study secondary analyzer invocation used only to render the
report artifact (construction, `analyze()`, reports-directory creation or
`publish_pdf`) leaves `export_pass_results_to_xml` successful: the export
never raises, the returned `(exported, skipped)` counts do not depend on the
render outcomes at all, every entry appended under a failing renderer
carries no `Report` reference, and concretely a single-success batch under a
failing renderer still exports its `Study` entry, without a report.  (If the
analyzer class itself fails to resolve, the export propagates that error —
see `export_fails_when_class_unresolvable`.) -/
theorem export_render_failure_harmless :
    (∀ (render : Nat → RenderOutcome) (now_iso : Nat → String)
        (batch : BatchAnalysis) (destination : String) (dest : Option Doc),
      ∃ out, export_pass_results_to_xml (.ok ()) render now_iso batch
        destination dest = .ok out)
    ∧ (∀ (r1 r2 : Nat → RenderOutcome) (n1 n2 : Nat → String)
        (batch : BatchAnalysis) (destination : String) (dest : Option Doc),
      export_counts (export_pass_results_to_xml (.ok ()) r1 n1 batch destination dest) =
        export_counts (export_pass_results_to_xml (.ok ()) r2 n2 batch destination dest))
    ∧ (∀ (render : Nat → RenderOutcome) (now_iso : Nat → String)
        (batch : BatchAnalysis) (destination : String) (d : Doc),
      (∀ i, render i ≠ .okRender) →
      export_dest (export_pass_results_to_xml (.ok ()) render now_iso batch
          destination Option.none) = some (some d) →
      ∀ e ∈ d, e.report = Option.none)
    ∧ export_pass_results_to_xml (.ok ()) (fun _ => .failBeforeMkdir) (fun _ => "T")
        (BatchAnalysis.mk "P" ⟨"t"⟩
          [mk_success_result ⟨"/r/s", "s", 1, ∅⟩ Option.none .nil])
        "/o/res.xml" Option.none =
      .ok ((1, 0),
        some [⟨"s", "P", "T", "/r/s", Option.none, Option.none, Option.none⟩],
        [FsEffect.mkdirDestParent, FsEffect.writeDest]) := by
  refine ⟨?_, ?_, ?_, by rfl⟩
  · intro render now_iso batch destination dest
    simp only [export_pass_results_to_xml]
    by_cases hs : batch.successful_results.isEmpty
    · rw [if_pos hs]
      exact ⟨_, rfl⟩
    · rw [if_neg hs]
      split
      · exact ⟨_, rfl⟩
      · exact ⟨_, rfl⟩
  · intro r1 r2 n1 n2 batch destination dest
    simp only [export_pass_results_to_xml]
    by_cases hs : batch.successful_results.isEmpty
    · rw [if_pos hs, if_pos hs]
    · rw [if_neg hs, if_neg hs]
      obtain ⟨he, hsk⟩ := export_step_counts_ext batch.phantom destination r1 r2
        n1 n2 batch.successful_results 0 0 (export_state0 dest)
        (export_state0 dest) rfl rfl rfl
      rw [he, hsk]
      by_cases hE : (export_step batch.phantom destination r2 n2
          batch.successful_results 0 (export_state0 dest)).exported ≠ 0
      · rw [if_pos hE, if_pos hE]
        simp [export_counts]
      · rw [if_neg hE, if_neg hE]
        simp [export_counts]
  · intro render now_iso batch destination d hrender hdest
    simp only [export_pass_results_to_xml] at hdest
    by_cases hs : batch.successful_results.isEmpty
    · rw [if_pos hs] at hdest
      simp [export_dest] at hdest
    · rw [if_neg hs] at hdest
      by_cases hE : (export_step batch.phantom destination render now_iso
          batch.successful_results 0 (export_state0 Option.none)).exported ≠ 0
      · rw [if_pos hE] at hdest
        simp only [export_dest, Option.some.injEq] at hdest
        intro e he
        rcases export_step_report_none batch.phantom destination render now_iso
            hrender batch.successful_results 0 (export_state0 Option.none) e
            (by rw [hdest]; exact he) with hmem | hrep
        · simp [export_state0, export_start] at hmem
        · exact hrep
      · rw [if_neg hE] at hdest
        simp [export_dest] at hdest

/-- Witness for `export_render_failure_harmless`: its render-failure clause
applied to a concrete single-success batch whose report rendering fails
before the reports directory is created. -/
theorem export_render_failure_harmless_witness :
    (⟨"s", "P", "T", "/r/s", Option.none, Option.none, Option.none⟩ : StudyEl).report
      = Option.none := by
  exact export_render_failure_harmless.2.2.1 (fun _ => .failBeforeMkdir)
    (fun _ => "T")
    (BatchAnalysis.mk "P" ⟨"t"⟩
      [mk_success_result ⟨"/r/s", "s", 1, ∅⟩ Option.none .nil])
    "/o/res.xml"
    [⟨"s", "P", "T", "/r/s", Option.none, Option.none, Option.none⟩]
    (fun _ h => RenderOutcome.noConfusion h) (by rfl)
    ⟨"s", "P", "T", "/r/s", Option.none, Option.none, Option.none⟩
    (List.mem_singleton.mpr rfl)

/-- C3: exporting is idempotent under the `(study relativePath, analyzerName)`
dedup key — for every initial document, a single-success batch is skipped
exactly when its key pair is already present (counts `(0, 1)` versus
`(1, 0)`); concretely, a single-success batch against an absent destination
exports `(1, 0)` leaving one `Study` entry, a second identical call returns
`(0, 1)` leaving the document with exactly the same single entry, and the
same study under a different analyzer name is appended as a second entry,
not skipped. -/
theorem export_idempotent_dedup :
    (∀ (d : Doc) (study : StudyRecord) (summary : Option String)
        (metrics : JsonFields) (ph : String) (ts : PyDatetime)
        (render : Nat → RenderOutcome) (now_iso : Nat → String)
        (destination : String),
      export_counts (export_pass_results_to_xml (.ok ()) render now_iso
          (BatchAnalysis.mk ph ts [mk_success_result study summary metrics])
          destination (some d)) =
        some (if (study.relative_path, ph) ∈ existing_keys d then (0, 1) else (1, 0)))
    ∧ export_pass_results_to_xml (.ok ()) (fun _ => .failBeforeMkdir) (fun _ => "T")
        (BatchAnalysis.mk "P" ⟨"t"⟩
          [mk_success_result ⟨"/r/s", "s", 1, ∅⟩ Option.none .nil])
        "/o/res.xml" Option.none =
      .ok ((1, 0),
        some [⟨"s", "P", "T", "/r/s", Option.none, Option.none, Option.none⟩],
        [FsEffect.mkdirDestParent, FsEffect.writeDest])
    ∧ export_pass_results_to_xml (.ok ()) (fun _ => .failBeforeMkdir) (fun _ => "T")
        (BatchAnalysis.mk "P" ⟨"t"⟩
          [mk_success_result ⟨"/r/s", "s", 1, ∅⟩ Option.none .nil])
        "/o/res.xml"
        (some [⟨"s", "P", "T", "/r/s", Option.none, Option.none, Option.none⟩]) =
      .ok ((0, 1),
        some [⟨"s", "P", "T", "/r/s", Option.none, Option.none, Option.none⟩],
        [FsEffect.readDest])
    ∧ export_pass_results_to_xml (.ok ()) (fun _ => .failBeforeMkdir) (fun _ => "T")
        (BatchAnalysis.mk "Q" ⟨"t"⟩
          [mk_success_result ⟨"/r/s", "s", 1, ∅⟩ Option.none .nil])
        "/o/res.xml"
        (some [⟨"s", "P", "T", "/r/s", Option.none, Option.none, Option.none⟩]) =
      .ok ((1, 0),
        some [⟨"s", "P", "T", "/r/s", Option.none, Option.none, Option.none⟩,
              ⟨"s", "Q", "T", "/r/s", Option.none, Option.none, Option.none⟩],
        [FsEffect.readDest, FsEffect.mkdirDestParent, FsEffect.writeDest]) := by
  refine ⟨?_, by rfl, by rfl, by rfl⟩
  intro d study summary metrics ph ts render now_iso destination
  by_cases hk : (study.relative_path, ph) ∈ existing_keys d
  · have hc : (existing_keys d).contains (study.relative_path, ph) = true :=
      List.elem_iff.mpr hk
    simp [export_pass_results_to_xml, export_counts, export_step,
      export_state0, export_start, hc, hk, BatchAnalysis.successful_results,
      mk_success_result]
  · have hc : (existing_keys d).contains (study.relative_path, ph) = false := by
      rw [Bool.eq_false_iff]
      intro hcon
      exact hk (List.elem_iff.mp hcon)
    simp [export_pass_results_to_xml, export_counts, export_step,
      export_state0, export_start, hc, hk, BatchAnalysis.successful_results,
      mk_success_result]

/-- Two walk hits lie on distinct root-to-leaf paths: neither relative
segment path is a prefix of the other. -/
def noAncestor (a b : (List String × List String)) : Prop :=
  ¬ a.1 <+: b.1 ∧ ¬ b.1 <+: a.1

mutual

theorem walkTree_hits (exts rel : List String) :
    ∀ (t : DirTree), t.wf = true →
      (walkTree exts rel t).Pairwise noAncestor ∧
      (∀ hit ∈ walkTree exts rel t, rel <+: hit.1)
  | .node files subs, hwf => by
    have hsplit : namesNodup subs.names = true ∧ subs.wf = true := by
      simpa [DirTree.wf] using hwf
    obtain ⟨hnd, hwfs⟩ := hsplit
    simp only [walkTree]
    by_cases hm : (filter_files files exts).isEmpty
    · rw [if_pos hm]
      obtain ⟨hp, hpre⟩ := walkSubs_hits exts rel subs hwfs hnd
      refine ⟨hp, fun hit hmem => ?_⟩
      obtain ⟨n, _, hpn⟩ := hpre hit hmem
      exact ((rel.prefix_append [n]).trans hpn)
    · rw [if_neg hm]
      exact ⟨List.pairwise_singleton _ _, fun hit hmem => by
        simp only [List.mem_singleton] at hmem
        subst hmem
        exact List.prefix_refl rel⟩

theorem walkSubs_hits (exts rel : List String) :
    ∀ (subs : DirList), subs.wf = true → namesNodup subs.names = true →
      (walkSubs exts rel subs).Pairwise noAncestor ∧
      (∀ hit ∈ walkSubs exts rel subs,
        ∃ n, n ∈ subs.names ∧ (rel ++ [n]) <+: hit.1)
  | .nil, _, _ => by simp [walkSubs]
  | .cons name child restL, hwf, hnd => by
    have hwfsplit : child.wf = true ∧ restL.wf = true := by
      simpa [DirList.wf] using hwf
    obtain ⟨hwfc, hwfr⟩ := hwfsplit
    have hndsplit : restL.names.contains name = false ∧
        namesNodup restL.names = true := by
      simpa [namesNodup, DirList.names] using hnd
    obtain ⟨hnotin, hndr⟩ := hndsplit
    obtain ⟨hp1, hpre1⟩ := walkTree_hits exts (rel ++ [name]) child hwfc
    obtain ⟨hp2, hpre2⟩ := walkSubs_hits exts rel restL hwfr hndr
    simp only [walkSubs]
    rw [List.pairwise_append]
    constructor
    · refine ⟨hp1, hp2, fun a ha b hb => ?_⟩
      have hpa := hpre1 a ha
      obtain ⟨n, hn, hpb⟩ := hpre2 b hb
      have hne : name ≠ n := by
        intro he
        subst he
        have hcontains : restL.names.contains name = true := List.elem_iff.mpr hn
        rw [hcontains] at hnotin
        cases hnotin
      have key : ∀ (u : List String), (rel ++ [name]) <+: u →
          (rel ++ [n]) <+: u → False := by
        intro u h1 h2
        have h3 : rel ++ [name] = rel ++ [n] :=
          (List.prefix_of_prefix_length_le h1 h2 (by simp)).eq_of_length
            (by simp)
        exact hne (by simpa using h3)
      constructor
      · intro hab
        exact key b.1 (hpa.trans hab) hpb
      · intro hba
        exact key a.1 hpa (hpb.trans hba)
    · intro hit hmem
      rcases List.mem_append.mp hmem with hmem | hmem
      · exact ⟨name, by simp [DirList.names], hpre1 hit hmem⟩
      · obtain ⟨n, hn, hpn⟩ := hpre2 hit hmem
        exact ⟨n, by simp [DirList.names, hn], hpn⟩

end

/-- C4: `build_inventory` prunes below studies — a directory with at least
one matching file yields exactly its own record and none of its descendants
is visited (the walk of such a node is that single hit); over any
well-formed tree no two walk hits lie on the same root-to-leaf path; and for
a root containing `a/study1/ct1.dcm` and `a/study1/nested/ct2.dcm` the
inventory holds exactly one record, for `a/study1`. -/
theorem build_inventory_prunes :
    (∀ (exts rel files : List String) (subs : DirList),
      filter_files files exts ≠ [] →
        walkTree exts rel (.node files subs) = [(rel, filter_files files exts)])
    ∧ (∀ (exts rel : List String) (t : DirTree), t.wf = true →
        (walkTree exts rel t).Pairwise noAncestor)
    ∧ ((build_inventory "/data"
          (.node []
            (.cons "a" (.node []
              (.cons "study1" (.node ["ct1.dcm"]
                (.cons "nested" (.node ["ct2.dcm"] .nil) .nil)) .nil)) .nil))
          DEFAULT_EXTENSIONS ⟨"t"⟩).studies =
        [⟨"/data/a/study1", "a/study1", 1, {".dcm"}⟩]) := by
  refine ⟨?_, ?_, by rfl⟩
  · intro exts rel files subs h
    simp only [walkTree]
    rw [if_neg (by simpa [List.isEmpty_iff] using h)]
  · intro exts rel t hwf
    exact (walkTree_hits exts rel t hwf).1

/-- Witness for `build_inventory_prunes`: the prune clause on a concrete
matching directory and the no-ancestor clause on a concrete well-formed
tree. -/
theorem build_inventory_prunes_witness :
    walkTree [".dcm"] ["a"] (.node ["x.dcm"] .nil) =
      [(["a"], filter_files ["x.dcm"] [".dcm"])] ∧
    (walkTree [".dcm"] []
      (.node [] (.cons "s" (.node ["x.dcm"] .nil) .nil))).Pairwise noAncestor := by
  constructor
  · exact build_inventory_prunes.1 [".dcm"] ["a"] ["x.dcm"] .nil (by decide)
  · exact build_inventory_prunes.2.1 [".dcm"] [] _ (by decide)

/-- C10: when the scan root itself directly contains at least one matching
file, `build_inventory` returns exactly one record — for the root, with
`relative_path` rendered as `"."` — no subdirectory contributes a record,
and exporting a success for that study stamps the string `"."` as the
entry's identity `id`. -/
theorem build_inventory_root_dot (root : String) (files : List String)
    (subs : DirList) (exts : List String) (now : PyDatetime)
    (h : filter_files files (exts.map py_lower) ≠ []) :
    (build_inventory root (.node files subs) exts now).studies =
      [{ path := root
         relative_path := "."
         file_count := (filter_files files (exts.map py_lower)).length
         extensions :=
           ((filter_files files (exts.map py_lower)).map path_suffix_lower).toFinset }] ∧
    (∀ (ph destination : String) (ni : Nat → String) (summary : Option String)
        (metrics : JsonFields) (render : Nat → RenderOutcome),
      ∀ st ∈ (export_step ph destination render ni
          [mk_success_result
            { path := root
              relative_path := "."
              file_count := (filter_files files (exts.map py_lower)).length
              extensions :=
                ((filter_files files (exts.map py_lower)).map path_suffix_lower).toFinset }
            summary metrics] 0 (export_state0 Option.none)).entries,
        st.id = ".") := by
  constructor
  · simp only [build_inventory, walkTree]
    rw [if_neg (by simpa [List.isEmpty_iff] using h)]
    simp [record_of_hit, render_relative, join_path]
  · intro ph destination ni summary metrics render st hst
    simp only [export_step, export_state0, export_start, existing_keys] at hst
    rw [if_neg (by simp)] at hst
    simp only [export_step, List.mem_append, List.mem_singleton] at hst
    rcases hst with hst | rfl
    · simp at hst
    · rfl

/-- Witness for `build_inventory_root_dot`: a concrete root directly holding
one DICOM file yields the single record for `"."`, and its export entry's
id is `"."`. -/
theorem build_inventory_root_dot_witness :
    (build_inventory "/r" (.node ["a.dcm"] (.cons "sub" (.node ["b.dcm"] .nil) .nil))
        DEFAULT_EXTENSIONS ⟨"t"⟩).studies =
      [{ path := "/r"
         relative_path := "."
         file_count := (filter_files ["a.dcm"] (DEFAULT_EXTENSIONS.map py_lower)).length
         extensions :=
           ((filter_files ["a.dcm"] (DEFAULT_EXTENSIONS.map py_lower)).map
             path_suffix_lower).toFinset }] := by
  exact (build_inventory_root_dot "/r" ["a.dcm"]
    (.cons "sub" (.node ["b.dcm"] .nil) .nil) DEFAULT_EXTENSIONS ⟨"t"⟩
    (by decide)).1

theorem normaliseNewlines_of_not_cr : ∀ (l : List Char), '\r' ∉ l → normaliseNewlines l = l := by
  intro l
  induction l with
  | nil => intro _; rfl
  | cons c rest ih =>
    intro h
    have hc : c ≠ '\r' := by
      rintro rfl
      exact h (List.mem_cons_self _ _)
    have hrest : '\r' ∉ rest := fun hm => h (List.mem_cons_of_mem _ hm)
    rw [normaliseNewlines.eq_def]
    split
    · rename_i heq
      exact List.noConfusion heq
    · rename_i heq
      injection heq with h1 h2
      exact absurd h1 hc
    · rename_i heq
      injection heq with h1 h2
      exact absurd h1 hc
    · rename_i heq
      injection heq with h1 h2
      rw [← h1, ← h2]
      rw [ih hrest]

theorem splitOnChar_ne_nil (c : Char) : ∀ l, splitOnChar c l ≠ [] := by
  intro l
  induction l with
  | nil => simp [splitOnChar]
  | cons x xs ih =>
    simp only [splitOnChar]
    by_cases hx : x = c
    · simp [hx]
    · rw [if_neg hx]
      cases hsp : splitOnChar c xs with
      | nil => simp
      | cons p ps => simp

theorem splitOnChar_append_cons (c : Char) (xs ys : List Char) (h : c ∉ xs) :
    splitOnChar c (xs ++ c :: ys) = xs :: splitOnChar c ys := by
  induction xs with
  | nil => simp [splitOnChar]
  | cons x xs ih =>
    have hx : x ≠ c := by
      rintro rfl
      exact h (List.mem_cons_self _ _)
    have ihh := ih (fun hm => h (List.mem_cons_of_mem _ hm))
    simp only [List.cons_append, splitOnChar, if_neg hx]
    rw [show xs.append (c :: ys) = xs ++ (c :: ys) from rfl, ihh]

theorem splitOnChar_of_not_mem (c : Char) (l : List Char) (h : c ∉ l) :
    splitOnChar c l = [l] := by
  induction l with
  | nil => rfl
  | cons x xs ih =>
    have hx : x ≠ c := by
      rintro rfl
      exact h (List.mem_cons_self _ _)
    have ihh := ih (fun hm => h (List.mem_cons_of_mem _ hm))
    simp only [splitOnChar, if_neg hx, ihh]

theorem head_not_ws_of_stripped (l : List Char) (hl : pyStripChars l = l) :
    ∀ c cs, l = c :: cs → c.isWhitespace = false := by
  intro c cs hcons
  by_contra hws
  rw [Bool.not_eq_false] at hws
  have hlen : (pyStripChars l).length ≤ cs.length := by
    rw [hcons]
    unfold pyStripChars trimLeft
    rw [List.dropWhile_cons, if_pos hws]
    calc ((((cs.dropWhile Char.isWhitespace).reverse).dropWhile Char.isWhitespace).reverse).length
        = (((cs.dropWhile Char.isWhitespace).reverse).dropWhile Char.isWhitespace).length := by
          rw [List.length_reverse]
      _ ≤ ((cs.dropWhile Char.isWhitespace).reverse).length :=
          (List.dropWhile_sublist _).length_le
      _ = (cs.dropWhile Char.isWhitespace).length := by rw [List.length_reverse]
      _ ≤ cs.length := (List.dropWhile_sublist _).length_le
  rw [hl, hcons] at hlen
  simp at hlen

theorem getLast_not_ws_of_stripped (l : List Char) (hl : pyStripChars l = l) :
    ∀ c, l.getLast? = some c → c.isWhitespace = false := by
  intro c hlast
  by_contra hws
  rw [Bool.not_eq_false] at hws
  by_cases htl : trimLeft l = []
  · have : pyStripChars l = [] := by
      unfold pyStripChars
      rw [htl]
      rfl
    rw [hl] at this
    rw [this] at hlast
    cases hlast
  · have hsuffix : trimLeft l <:+ l := List.dropWhile_suffix _
    obtain ⟨pre, hpre⟩ := hsuffix
    have hlast' : (trimLeft l).getLast? = some c := by
      have happ := List.getLast?_append_of_ne_nil pre htl
      rw [hpre] at happ
      rw [← happ]
      exact hlast
    obtain ⟨t, ht⟩ : ∃ t, (trimLeft l).reverse = c :: t := by
      cases hrev : (trimLeft l).reverse with
      | nil =>
        rw [List.reverse_eq_nil_iff] at hrev
        exact absurd hrev htl
      | cons a t =>
        refine ⟨t, ?_⟩
        have : (trimLeft l).reverse.head? = some c := by
          rw [List.head?_reverse]
          exact hlast'
        rw [hrev] at this
        injection this with h
        rw [h]
  -- length argument
    have hlen : (pyStripChars l).length < l.length := by
      unfold pyStripChars
      rw [ht, List.dropWhile_cons, if_pos hws, List.length_reverse]
      calc (t.dropWhile Char.isWhitespace).length
          ≤ t.length := (List.dropWhile_sublist _).length_le
        _ < (trimLeft l).length := by
            have : (trimLeft l).length = t.length + 1 := by
              rw [← List.length_reverse (trimLeft l), ht]
              simp
            omega
        _ ≤ l.length := (List.dropWhile_sublist _).length_le
    rw [hl] at hlen
    exact absurd hlen (by omega)

theorem dropWhile_eq_self_of_head (p : Char → Bool) (l : List Char) (c : Char)
    (hh : l.head? = some c) (hc : p c = false) : l.dropWhile p = l := by
  cases l with
  | nil => cases hh
  | cons a t =>
    injection hh with h
    subst h
    rw [List.dropWhile_cons, if_neg (by simp [hc])]

theorem pyStripChars_join (x y : List Char) (htx : pyStripChars x = x) (hxe : x ≠ [])
    (hty : pyStripChars y = y) (hye : y ≠ []) :
    pyStripChars (x ++ ' ' :: y) = x ++ ' ' :: y := by
  obtain ⟨cx, xs, rfl⟩ : ∃ c cs, x = c :: cs := by
    cases x with
    | nil => exact absurd rfl hxe
    | cons a t => exact ⟨a, t, rfl⟩
  have hcx : cx.isWhitespace = false := head_not_ws_of_stripped _ htx cx xs rfl
  obtain ⟨cy, hylast⟩ : ∃ c, y.getLast? = some c := by
    cases hy : y.getLast? with
    | none =>
      rw [List.getLast?_eq_none_iff] at hy
      exact absurd hy hye
    | some a => exact ⟨a, rfl⟩
  have hcy : cy.isWhitespace = false := getLast_not_ws_of_stripped _ hty cy hylast
  unfold pyStripChars trimLeft
  rw [List.cons_append, List.dropWhile_cons, if_neg (by simp [hcx])]
  have hlast2 : (cx :: (xs ++ ' ' :: y)).getLast? = some cy := by
    rw [show cx :: (xs ++ ' ' :: y) = (cx :: xs ++ [' ']) ++ y by simp]
    rw [List.getLast?_append_of_ne_nil _ hye]
    exact hylast
  rw [dropWhile_eq_self_of_head _ _ cy (by rw [List.head?_reverse]; exact hlast2) hcy]
  rw [List.reverse_reverse]

theorem rawLines_append (x y : List Char) (hnx : '\n' ∉ x) (hrx : '\r' ∉ x)
    (hny : '\n' ∉ y) (hry : '\r' ∉ y) (htx : pyStripChars x = x) (hxe : x ≠ [])
    (hty : pyStripChars y = y) (hye : y ≠ []) :
    rawLines (x ++ '\n' :: y) = [x, y] := by
  unfold rawLines
  rw [normaliseNewlines_of_not_cr _ (by
    intro hm
    rcases List.mem_append.mp hm with h | h
    · exact hrx h
    · rcases List.mem_cons.mp h with h | h
      · exact absurd h (by decide)
      · exact hry h)]
  rw [splitOnChar_append_cons '\n' x y hnx, splitOnChar_of_not_mem '\n' y hny]
  simp [htx, hty, hxe, hye]

/-- C6: the summary parser merges wrapped lines — for any two physical
lines, when the first (non-blank, already trimmed) ends with a colon or a
comma and the second (non-blank, trimmed) does not, `_normalise_summary`
joins them space-separated into one logical entry, which is then classified
as a single unit; in particular `"Median:\n12.3"` parses to the single
entry `Item(name="Median", value="12.3")`, not two entries. -/
theorem summary_merges_wrapped_lines :
    (∀ x y : List Char,
      '\n' ∉ x → '\r' ∉ x → '\n' ∉ y → '\r' ∉ y →
      pyStripChars x = x → x ≠ [] → pyStripChars y = y → y ≠ [] →
      endsColonOrComma x = true → endsColonOrComma y = false →
      normalise_summary ⟨x ++ '\n' :: y⟩ = [x ++ ' ' :: y] ∧
      emit_summary ⟨x ++ '\n' :: y⟩ = [classifyEntry (x ++ ' ' :: y)])
    ∧ emit_summary "Median:\n12.3" =
        [SummaryEntry.Item "Median" (some "12.3")] := by
  constructor
  · intro x y hnx hrx hny hry htx hxe hty hye hcx hcy
    have hraw : rawLines (x ++ '\n' :: y) = [x, y] :=
      rawLines_append x y hnx hrx hny hry htx hxe hty hye
    have hjoin := pyStripChars_join x y htx hxe hty hye
    have hmain : normalise_summary ⟨x ++ '\n' :: y⟩ = [x ++ ' ' :: y] := by
      unfold normalise_summary
      rw [show (⟨x ++ '\n' :: y⟩ : String).data = x ++ '\n' :: y from rfl]
      rw [hraw]
      simp [mergeLines, hcx, hcy, List.isEmpty_iff, hxe, hjoin]
    refine ⟨hmain, ?_⟩
    unfold emit_summary
    rw [hmain]
    rfl
  · rfl

/-- Witness for `summary_merges_wrapped_lines`: the merge clause evaluated
at the `"Median:"` / `"12.3"` line pair. -/
theorem summary_merges_wrapped_lines_witness :
    normalise_summary ⟨"Median:".data ++ '\n' :: "12.3".data⟩ =
      ["Median:".data ++ ' ' :: "12.3".data] := by
  exact (summary_merges_wrapped_lines.1 "Median:".data "12.3".data
    (by decide) (by decide) (by decide) (by decide) (by decide) (by decide)
    (by decide) (by decide) (by decide) (by decide)).1

end BulkCBCT
